import Mathlib

/-!
Shallow embedding of the stale-tolerant caching and aggregation layer of the
pulse-point repository:

* `src/server/utils/cache.ts` — flat-file cache (`readCache` / `writeCache`);
* `src/server/services/githubService.ts` — error classification
  (`handleOctokitError`), the bounded multi-repo commit scan
  (`getOrgMemberCommits` with its inner `processQueue` /
  `fetchCommitsForRepo`), and the activity aggregation
  (`getOrgActivityData`);
* the express handler `handleGetOrgDashboard` (server index file) — the
  stale-fallback orchestration for the org dashboard.

External platform facilities (file system, HTTP, `Date` parsing) are made
explicit parameters; JavaScript string operations used by the code
(`toLowerCase`, `sort`, `startsWith`, the one regex match) are modelled on
code points below.
-/

namespace PulsePoint

instance {ε α : Type} [DecidableEq ε] [DecidableEq α] : DecidableEq (Except ε α) :=
  fun x y =>
    match x, y with
    | .ok a, .ok b =>
        if h : a = b then .isTrue (by rw [h]) else .isFalse (by simp [h])
    | .error a, .error b =>
        if h : a = b then .isTrue (by rw [h]) else .isFalse (by simp [h])
    | .ok _, .error _ => .isFalse (by simp)
    | .error _, .ok _ => .isFalse (by simp)

/-- Model of JS `String.prototype.toLowerCase` on one character (ASCII case
mapping, which is all the code relies on for GitHub logins). -/
def jsCharLower (c : Char) : Char :=
  if 65 ≤ c.toNat ∧ c.toNat ≤ 90 then Char.ofNat (c.toNat + 32) else c

/-- Model of JS `s.toLowerCase()`. -/
def jsToLower (s : String) : String :=
  ⟨s.data.map jsCharLower⟩

/-- Code-point lexicographic comparison of character lists, the order used by
the default JS `Array.prototype.sort` on strings. -/
def lexLe : List Char → List Char → Bool
  | [], _ => true
  | _ :: _, [] => false
  | a :: as, b :: bs =>
      if a.toNat < b.toNat then true
      else if b.toNat < a.toNat then false
      else lexLe as bs

/-- The string order underlying the default JS sort. -/
def strLe (a b : String) : Bool :=
  lexLe a.data b.data

/-- `strLe` as a relation, for use with `List.insertionSort`. -/
def strLeP (a b : String) : Prop :=
  strLe a b = true

instance : DecidableRel strLeP :=
  fun a b => inferInstanceAs (Decidable (strLe a b = true))

/-- Model of JS `[...xs].sort()` on an array of strings: some comparison sort
for the default string order (the sorted output is unique, so insertion sort
is a faithful model of whatever algorithm the engine uses). -/
def sortStrings (l : List String) : List String :=
  l.insertionSort strLeP

/-- Model of JS `s.startsWith(p)`. -/
def jsStartsWith (s p : String) : Bool :=
  p.data.isPrefixOf s.data

/-- One attempt of the regex `/url=([^;]+)/` at a fixed position: succeed
when the text here starts with `url=` followed by at least one non-`;`
character, capturing the maximal run of non-`;` characters. -/
def tryUrlAt : List Char → Option (List Char)
  | 'u' :: 'r' :: 'l' :: '=' :: rest =>
      let cap := rest.takeWhile fun c => c ≠ ';'
      if cap.isEmpty then none else some cap
  | _ => none

/-- The regex scan `/url=([^;]+)/` from `handleOctokitError`: try the match
at each position left to right, advancing one character on failure, as the
regex engine does. -/
def matchUrlCapture : List Char → Option (List Char)
  | [] => none
  | c :: cs =>
      match tryUrlAt (c :: cs) with
      | some cap => some cap
      | none => matchUrlCapture cs

/-- `ssoHeader.match(/url=([^;]+)/)?.[1]` from `handleOctokitError`. -/
def extractSsoUrl (s : String) : Option String :=
  (matchUrlCapture s.data).map fun cs => ⟨cs⟩

/-! ## Cache store (`src/server/utils/cache.ts`) -/

/-- A JS millisecond quantity that may be `Infinity` (the stale-fallback
reads pass `Infinity` as `maxAgeMs`). -/
inductive JsMillis : Type
  | fin (ms : Nat)
  | inf
deriving DecidableEq, Repr

/-- Model of JS `age > maxAgeMs`: a finite age never exceeds `Infinity`. -/
def JsMillis.ltAge (age : Nat) : JsMillis → Bool
  | .fin m => decide (age > m)
  | .inf => false

/-- The `CacheData` shape persisted by `writeCache`:
`{ timestamp: Date.now(), data }`. -/
structure CacheData (α : Type) : Type where
  timestamp : Nat
  data : α
deriving DecidableEq, Repr

/-- What physically sits at a cache key: nothing (read throws `ENOENT`), a
malformed file (`JSON.parse` throws), or a well-formed entry. -/
inductive StoredEntry (α : Type) : Type
  | absent
  | corrupt
  | entry (e : CacheData α)
deriving DecidableEq, Repr

/-- The `ReadCacheResult` shape returned by `readCache`: note it carries no
`timestamp` field in this version of `cache.ts`. -/
structure ReadCacheResult (α : Type) : Type where
  data : Option α
  stale : Bool
deriving DecidableEq, Repr

/-- `readCache(key, maxAgeMs, options)` from `cache.ts`, with the file system
made explicit: `stored` is what sits at the key and `now` is `Date.now()`.
A missing or corrupt file yields `{data: null, stale: false}`.  An existing
entry is expired when `now - timestamp > maxAgeMs`; an expired entry yields
its payload only under `options.allowStale` (the default is `false`), and
always sets `stale := true`. -/
def readCache {α : Type} (stored : StoredEntry α) (now : Nat)
    (maxAgeMs : JsMillis) (allowStale : Bool) : ReadCacheResult α :=
  match stored with
  | .absent => ⟨none, false⟩
  | .corrupt => ⟨none, false⟩
  | .entry e =>
      if JsMillis.ltAge (now - e.timestamp) maxAgeMs then
        ⟨if allowStale then some e.data else none, true⟩
      else
        ⟨some e.data, false⟩

/-- `writeCache(key, data)` from `cache.ts`: the entry persisted under the
key (timestamped with `Date.now()`). -/
def writeCache {α : Type} (now : Nat) (data : α) : CacheData α :=
  ⟨now, data⟩

/-! ## Error classification (`githubService.ts`, `handleOctokitError`) -/

/-- The relevant surface of an upstream (Octokit) request error: whether it
is a `RequestError`, its HTTP status, the three response headers the
classifier inspects, the response body message, and the error message. -/
structure UpstreamError : Type where
  isRequestError : Bool
  status : Nat
  ssoHeader : Option String
  rateLimitRemaining : Option String
  rateLimitReset : Option String
  dataMessage : Option String
  message : String
deriving DecidableEq, Repr

/-- What `handleOctokitError` throws: one of the two custom error classes
(`SamlSsoError`, `RateLimitError`), the descriptive 404 `Error`, or the
original error rethrown unchanged. -/
inductive GhError : Type
  | samlSso (message ssoUrl : String)
  | rateLimit (message : String) (resetTimestamp : Option Nat)
  | notFound (message : String)
  | original (e : UpstreamError)
deriving DecidableEq, Repr

/-- The `message` property of the thrown error object. -/
def GhError.msg : GhError → String
  | .samlSso m _ => m
  | .rateLimit m _ => m
  | .notFound m => m
  | .original e => e.message

/-- Whether the classified error is the `SamlSsoError` class. -/
def GhError.isSamlSso : GhError → Bool
  | .samlSso _ _ => true
  | _ => false

/-- Whether the classified error is the `RateLimitError` class. -/
def GhError.isRateLimit : GhError → Bool
  | .rateLimit _ _ => true
  | _ => false

/-- `parseInt(s, 10)` on a header value: the maximal leading run of decimal
digits, or `NaN` (modelled as `none`) when there is none. -/
def parseIntDecimal (s : String) : Option Nat :=
  let ds := s.data.takeWhile fun c => 48 ≤ c.toNat ∧ c.toNat ≤ 57
  if ds.isEmpty then none
  else some (ds.foldl (fun n c => n * 10 + (c.toNat - 48)) 0)

/-- `resetTimestampHeader ? parseInt(resetTimestampHeader, 10) * 1000 : null`
(epoch seconds to milliseconds); an absent, empty or non-numeric header is
modelled as `null`. -/
def parseResetMs : Option String → Option Nat
  | some h => (parseIntDecimal h).map (· * 1000)
  | none => none

/-- The message `SamlSsoError` is constructed with. -/
def samlSsoMessage : String :=
  "Resource protected by organization SAML enforcement. Please authenticate via the provided URL."

/-- The fallback message `RateLimitError` is constructed with when the
response body has none. -/
def rateLimitFallbackMessage : String :=
  "GitHub API rate limit exceeded."

/-- The descriptive message of the 404 branch. -/
def notFoundMessage : String :=
  "GitHub resource not found (404). Check organization/repo names and token permissions."

/-- The SAML check inside `handleOctokitError`: a 403 `RequestError` whose
`x-github-sso` header starts with `required` and yields an extractable URL
produces a `SamlSsoError`; otherwise the check falls through. -/
def ssoCheck (e : UpstreamError) : Option GhError :=
  if e.isRequestError && e.status == 403 then
    match e.ssoHeader with
    | some h =>
        if jsStartsWith h "required" then
          (extractSsoUrl h).map fun url => GhError.samlSso samlSsoMessage url
        else none
    | none => none
  else none

/-- The rate-limit check inside `handleOctokitError`: still under the 403
`RequestError` guard, an `x-ratelimit-remaining` header equal to `"0"`
produces a `RateLimitError`. -/
def rateCheck (e : UpstreamError) : Option GhError :=
  if e.isRequestError && e.status == 403 then
    if e.rateLimitRemaining == some "0" then
      some (GhError.rateLimit (e.dataMessage.getD rateLimitFallbackMessage)
        (parseResetMs e.rateLimitReset))
    else none
  else none

/-- `handleOctokitError(error, context)` from `githubService.ts`.  The
function never returns normally; the value here is what it throws: first the
SAML check, then the rate-limit check (both only under a 403
`RequestError`), then the descriptive 404 error, else the original error
rethrown. -/
def handleOctokitError (e : UpstreamError) : GhError :=
  match ssoCheck e with
  | some err => err
  | none =>
      match rateCheck e with
      | some err => err
      | none =>
          if e.isRequestError && e.status == 404 then GhError.notFound notFoundMessage
          else GhError.original e

/-! ## Bounded repository scanner (`githubService.ts`, `getOrgMemberCommits`) -/

/-- The slice of a commit item the scanner looks at: `commit.author` is the
linked GitHub account and can be `null` even when the git authorship belongs
to an org member. -/
structure CommitAuthor : Type where
  login : String
deriving DecidableEq, Repr

/-- A commit item returned by `octokit.repos.listCommits`; `sha` stands for
the rest of the payload. -/
structure Commit : Type where
  sha : String
  author : Option CommitAuthor
deriving DecidableEq, Repr

/-- An org member as produced by `getOrgMembers` (login plus best-effort
display name). -/
structure OrgMember : Type where
  login : String
  name : Option String
deriving DecidableEq, Repr

/-- What the upstream commit-list endpoint does for one repository: either
it serves pages (page size 100; the scanner stops at the first page shorter
than 100), or some page request throws.  `pagesBefore` are the pages served
before the throw; the code discards them because `fetchCommitsForRepo`
rethrows out of its `try` before returning `repoCommits`. -/
inductive RepoFetchOutcome : Type
  | ok (pages : List (List Commit))
  | fail (pagesBefore : List (List Commit)) (e : UpstreamError)
deriving DecidableEq, Repr

/-- The page filter of `fetchCommitsForRepo`:
`commit.author && memberLogins.has(commit.author.login.toLowerCase())`. -/
def commitMatches (memberLogins : List String) (c : Commit) : Bool :=
  match c.author with
  | some a => memberLogins.contains (jsToLower a.login)
  | none => false

/-- The pagination loop of `fetchCommitsForRepo`: fetch a page; stop on an
empty page; filter it to member commits; stop after a short page (fewer than
`per_page = 100` items); otherwise continue.  An exhausted `pages` list
models the endpoint serving an empty page. -/
def collectRepoCommits (memberLogins : List String) : List (List Commit) → List Commit
  | [] => []
  | page :: rest =>
      if page.length == 0 then []
      else
        let matched := page.filter (commitMatches memberLogins)
        if page.length < 100 then matched
        else matched ++ collectRepoCommits memberLogins rest

/-- `fetchCommitsForRepo` from `getOrgMemberCommits`: on success the filtered
commits of all visited pages; when a page request throws, the error is
passed through `handleOctokitError`, which always rethrows a classified
error, so the commits accumulated from earlier pages are discarded. -/
def fetchCommitsForRepo (memberLogins : List String)
    (outcome : RepoFetchOutcome) : Except GhError (List Commit) :=
  match outcome with
  | .ok pages => .ok (collectRepoCommits memberLogins pages)
  | .fail _pagesBefore e => .error (handleOctokitError e)

/-- What one queued repository contributes to `allMatchingCommits`: the
promise chain in `processQueue` appends the fetched commits in `.then` and
its `.catch` only logs, so a repository whose fetch failed — with any
classified error, `SamlSsoError` included — contributes nothing. -/
def repoContribution (memberLogins : List String)
    (outcome : RepoFetchOutcome) : List Commit :=
  match fetchCommitsForRepo memberLogins outcome with
  | .ok commits => commits
  | .error _ => []

/-- The merged `allMatchingCommits` list after the queue drains, written in
queue order (completion order is nondeterministic at runtime; the merged
contents are as listed). -/
def scanMatchingCommits (repos : List String) (fetch : String → RepoFetchOutcome)
    (memberLogins : List String) : List Commit :=
  (repos.map fun r => repoContribution memberLogins (fetch r)).flatten

/-! ## Cache keys -/

/-- `since ? new Date(since).toISOString().split('T')[0] : 'start'`; the
`Date` round-trip is the platform's and is abstracted as `dateKey`. -/
def sinceKeyPart (dateKey : String → String) : Option String → String
  | some s => dateKey s
  | none => "start"

/-- `until ? new Date(until).toISOString().split('T')[0] : 'now'`. -/
def untilKeyPart (dateKey : String → String) : Option String → String
  | some u => dateKey u
  | none => "now"

/-- The aggregated-commits cache key built at the top of
`getOrgMemberCommits`; the repo list is sorted first
(`[...targetRepos].sort().join('_')`). -/
def commitsCacheKey (dateKey : String → String) (org : String)
    (targetRepos : List String) (since untl : Option String) : String :=
  "org-" ++ org ++ "-commits-repos_" ++
    String.intercalate "_" (sortStrings targetRepos) ++
    "-since_" ++ sinceKeyPart dateKey since ++
    "-until_" ++ untilKeyPart dateKey untl

/-- The org-activity cache key built at the top of `getOrgActivityData`;
same shape with `activity` in place of `commits`. -/
def activityCacheKey (dateKey : String → String) (org : String)
    (targetRepos : List String) (since untl : Option String) : String :=
  "org-" ++ org ++ "-activity-repos_" ++
    String.intercalate "_" (sortStrings targetRepos) ++
    "-since_" ++ sinceKeyPart dateKey since ++
    "-until_" ++ untilKeyPart dateKey untl

/-- `COMMITS_CACHE_TTL` (15 minutes, in ms). -/
def COMMITS_CACHE_TTL : Nat := 15 * 60 * 1000

/-- `ORG_ACTIVITY_CACHE_TTL` (15 minutes, in ms). -/
def ORG_ACTIVITY_CACHE_TTL : Nat := 15 * 60 * 1000

/-- What a run of `getOrgMemberCommits` produces on the success path: the
returned commit list and the cache write it performed (`none` when the run
was served from a fresh cache hit and wrote nothing). -/
structure ScanResult : Type where
  returned : List Commit
  cacheWrite : Option (String × CacheData (List Commit))
deriving DecidableEq, Repr

/-- `getOrgMemberCommits(org, targetRepos, since, until)`.  Explicit inputs:
the cache contents (`cacheStore`, by key), `Date.now()`, the outcome of the
`getOrgMembers` call, and the upstream commit endpoint per repository.  The
function serves a fresh cache hit, otherwise propagates a member-list
failure, otherwise lowercases the member logins, scans the repositories
through the bounded queue, writes the merged list to the cache and returns
it. -/
def getOrgMemberCommits (dateKey : String → String)
    (cacheStore : String → StoredEntry (List Commit)) (now : Nat)
    (org : String) (targetRepos : List String) (since untl : Option String)
    (membersResult : Except GhError (List OrgMember))
    (fetch : String → RepoFetchOutcome) : Except GhError ScanResult :=
  let cacheKey := commitsCacheKey dateKey org targetRepos since untl
  let cached := readCache (cacheStore cacheKey) now (.fin COMMITS_CACHE_TTL) false
  match cached.data, cached.stale with
  | some commits, false => .ok ⟨commits, none⟩
  | _, _ =>
      match membersResult with
      | .error e => .error e
      | .ok members =>
          let memberLogins := members.map fun m => jsToLower m.login
          let allMatchingCommits := scanMatchingCommits targetRepos fetch memberLogins
          .ok ⟨allMatchingCommits, some (cacheKey, writeCache now allMatchingCommits)⟩

/-! ## Activity aggregation (`githubService.ts`, `getOrgActivityData`) -/

/-- The per-user summary assembled by `getOrgActivityData`. -/
structure UserActivitySummary : Type where
  commitCount : Nat
  prAuthoredCount : Nat
  issueAuthoredCount : Nat
  prCommentCount : Nat
deriving DecidableEq, Repr

/-- The tuple produced by the `Promise.all` of the four per-member searches
(`searchUserCommits`, `searchUserPRsAuthored`, `searchUserIssuesAuthored`,
`searchUserPRComments`); only the lengths of the result arrays are used. -/
structure SearchQuad (α : Type) : Type where
  commits : List α
  prsAuthored : List α
  issuesAuthored : List α
  prComments : List α
deriving DecidableEq, Repr

/-- The counts taken from one member's four search results. -/
def summaryOfQuad {α : Type} (q : SearchQuad α) : UserActivitySummary :=
  ⟨q.commits.length, q.prsAuthored.length, q.issuesAuthored.length, q.prComments.length⟩

/-- JS object property assignment `acc[k] = v` on an object modelled as an
association list in insertion order: overwrite in place when the key exists,
else append. -/
def objInsert {α : Type} (m : List (String × α)) (k : String) (v : α) :
    List (String × α) :=
  if m.any fun p => p.1 == k then
    m.map fun p => if p.1 == k then (k, v) else p
  else m ++ [(k, v)]

/-- The `Promise.all(activityPromises)` step: run the four searches for each
member in order; the first member whose searches fail rejects the whole
aggregate with that classified error. -/
def collectActivities {α : Type} (searchResults : String → Except GhError (SearchQuad α)) :
    List OrgMember → Except GhError (List (OrgMember × SearchQuad α))
  | [] => .ok []
  | m :: rest =>
      match searchResults m.login with
      | .error e => .error e
      | .ok q =>
          match collectActivities searchResults rest with
          | .error e => .error e
          | .ok tail => .ok ((m, q) :: tail)

/-- The `reduce` building `activityByUser`: for each member (in member-list
order) store the counts under the lowercased login. -/
def buildActivityByUser {α : Type} (pairs : List (OrgMember × SearchQuad α)) :
    List (String × UserActivitySummary) :=
  pairs.foldl (fun acc p => objInsert acc (jsToLower p.1.login) (summaryOfQuad p.2)) []

/-- The `OrgActivityData` shape: the member list plus the summary-by-user
map (keys are lowercased logins). -/
structure OrgActivityData : Type where
  activityByUser : List (String × UserActivitySummary)
  members : List OrgMember
deriving DecidableEq, Repr

/-- What a run of `getOrgActivityData` produces on the success path: the
returned aggregate and the cache write it performed. -/
structure ActivityResult : Type where
  returned : OrgActivityData
  cacheWrite : Option (String × CacheData OrgActivityData)
deriving DecidableEq, Repr

/-- `getOrgActivityData(org, targetRepos, since, until)`.  Explicit inputs:
the cache contents, `Date.now()`, the outcome of `getOrgMembers`, and the
per-member search outcomes.  Serves a fresh cache hit; otherwise propagates
a member-list or per-member-search failure; otherwise assembles
`activityByUser`, caches and returns the aggregate. -/
def getOrgActivityData {α : Type} (dateKey : String → String)
    (cacheStore : String → StoredEntry OrgActivityData) (now : Nat)
    (org : String) (targetRepos : List String) (since untl : Option String)
    (membersResult : Except GhError (List OrgMember))
    (searchResults : String → Except GhError (SearchQuad α)) :
    Except GhError ActivityResult :=
  let cacheKey := activityCacheKey dateKey org targetRepos since untl
  let cached := readCache (cacheStore cacheKey) now (.fin ORG_ACTIVITY_CACHE_TTL) false
  match cached.data, cached.stale with
  | some d, false => .ok ⟨d, none⟩
  | _, _ =>
      match membersResult with
      | .error e => .error e
      | .ok members =>
          match collectActivities searchResults members with
          | .error e => .error e
          | .ok pairs =>
              let result : OrgActivityData := ⟨buildActivityByUser pairs, members⟩
              .ok ⟨result, some (cacheKey, writeCache now result)⟩

/-! ## Org-dashboard orchestration (`handleGetOrgDashboard`) -/

/-- A JSON field value, for stating which fields a response body carries. -/
inductive JVal : Type
  | s (v : String)
  | n (v : Nat)
  | b (v : Bool)
  | nul
deriving DecidableEq, Repr

/-- The response `handleGetOrgDashboard` sends.  `freshData` covers both the
initial-cache-hit and the fresh-fetch paths (`isStale: false`);
`staleWithError` is the 200 stale fallback whose `error` payload is given as
its literal field list; the last three are the no-cache error paths. -/
inductive DashboardResponse : Type
  | freshData (d : OrgActivityData)
  | staleWithError (d : OrgActivityData) (errorFields : List (String × JVal))
  | ssoResponse (status : Nat) (ssoRequired : Bool) (ssoUrl message : String)
  | rateLimitResponse (status : Nat) (rateLimitExceeded : Bool)
      (resetTimestamp : Option Nat) (message : String)
  | passToNext (e : GhError)
deriving DecidableEq, Repr

/-- `sinceISO.replace(/[-:]/g, '')` from the handler's key derivation. -/
def stripDashColon (s : String) : String :=
  ⟨s.data.filter fun c => c ≠ '-' ∧ c ≠ ':'⟩

/-- The handler-level dashboard cache key:
`org-…-activity-repos_${TARGET_REPOS.join(',')}-since_…-until_…` (note: the
repo list is comma-joined and unsorted here, unlike the service keys). -/
def dashboardCacheKey (org : String) (repos : List String)
    (sinceISO : String) (untilISO : Option String) : String :=
  "org-" ++ org ++ "-activity-repos_" ++ String.intercalate "," repos ++
    "-since_" ++ stripDashColon sinceISO ++
    "-until_" ++ (match untilISO with | some u => stripDashColon u | none => "")

/-- The `errorPayload` object the stale branch builds:
`{ message, isStale: true, timestamp }`.  In this version of `cache.ts` the
`readCache` result carries no `timestamp` property, so the destructured
`timestamp` is `undefined` and the field is dropped from the JSON. -/
def staleErrorFields (e : GhError) : List (String × JVal) :=
  [("message", JVal.s e.msg), ("isStale", JVal.b true)]

/-- `handleGetOrgDashboard`.  Explicit inputs: the handler-level cache
contents, `Date.now()`, the configured fresh TTL
(`CACHE_MAX_AGE_HOURS * 60 * 60 * 1000`), and the outcome of the
`getOrgActivityData` call.  Initial cache check at the fresh TTL; on a hit,
respond fresh; otherwise fetch; on success respond fresh; on failure re-read
the same key with `Infinity` and serve it stale with an error payload, or —
with no entry — answer 403/429 for the two classified errors and pass
anything else to `next`. -/
def handleGetOrgDashboard (cacheStore : String → StoredEntry OrgActivityData)
    (now : Nat) (dailyCacheMaxAgeMs : Nat)
    (org : String) (repos : List String) (sinceISO : String) (untilISO : Option String)
    (fetchResult : Except GhError OrgActivityData) : DashboardResponse :=
  let cacheKey := dashboardCacheKey org repos sinceISO untilISO
  let initial := readCache (cacheStore cacheKey) now (.fin dailyCacheMaxAgeMs) false
  match initial.data with
  | some d => .freshData d
  | none =>
      match fetchResult with
      | .ok d => .freshData d
      | .error e =>
          let staleRead := readCache (cacheStore cacheKey) now .inf false
          match staleRead.data with
          | some d => .staleWithError d (staleErrorFields e)
          | none =>
              match e with
              | .samlSso msg url => .ssoResponse 403 true url msg
              | .rateLimit msg reset => .rateLimitResponse 429 true reset msg
              | other => .passToNext other

/-- The error branch of the no-cache path, as a standalone map from the
classified error to the response. -/
def errorResponseFor : GhError → DashboardResponse
  | .samlSso msg url => .ssoResponse 403 true url msg
  | .rateLimit msg reset => .rateLimitResponse 429 true reset msg
  | other => .passToNext other

/-! ## Concurrency of the repo scan (`processQueue` and the drain loop) -/

/-- `MAX_CONCURRENT_REPO_FETCHES`. -/
def MAX_CONCURRENT_REPO_FETCHES : Nat := 5

/-- The scan's shared state: the repo queue and the `activeFetches`
counter. -/
structure ScanState : Type where
  queue : List String
  active : Nat
deriving DecidableEq, Repr

/-- One observable event of the scan, at the granularity of the code's
single-threaded execution: `start` is one iteration of the `processQueue`
`while` loop (guard `activeFetches < MAX_CONCURRENT_REPO_FETCHES`, then
increment and shift), `finish` is a fetch settling (`finally` decrements).
Any interleaving is admitted, which over-approximates the real scheduler. -/
inductive ScanStep : ScanState → ScanState → Prop
  | start (r : String) (q : List String) (a : Nat) :
      a < MAX_CONCURRENT_REPO_FETCHES → ScanStep ⟨r :: q, a⟩ ⟨q, a + 1⟩
  | finish (q : List String) (a : Nat) : ScanStep ⟨q, a + 1⟩ ⟨q, a⟩

/-- States the scan can pass through, from the full queue with no active
fetches. -/
def ScanReachable (repos : List String) (s : ScanState) : Prop :=
  Relation.ReflTransGen ScanStep ⟨repos, 0⟩ s

/-- The synchronous effect of one `processQueue()` call: repeatedly shift a
repo off the queue and increment `activeFetches` while the queue is
non-empty and fewer than 5 fetches are active (the fetch promises themselves
settle later). -/
def processQueue : List String → Nat → List String × Nat
  | [], a => ([], a)
  | r :: rest, a =>
      if a < MAX_CONCURRENT_REPO_FETCHES then processQueue rest (a + 1)
      else (r :: rest, a)

/-- A fetch settling under JS run-to-completion: its `finally` callback
decrements `activeFetches` and synchronously runs `processQueue()` before
anything else (in particular the drain loop's poll) can observe the state. -/
inductive DrainStep : ScanState → ScanState → Prop
  | finish (q : List String) (a : Nat) :
      DrainStep ⟨q, a + 1⟩ ⟨(processQueue q a).1, (processQueue q a).2⟩

/-- States observable at the drain loop's polls: the initial wave is the
first `processQueue()` call (the other four of the initial
`Array(5).map(() => processQueue())` run against an already-saturated or
already-empty queue), followed by fetches settling one at a time. -/
def DrainReachable (repos : List String) (s : ScanState) : Prop :=
  Relation.ReflTransGen DrainStep
    ⟨(processQueue repos 0).1, (processQueue repos 0).2⟩ s

/-- The data-model invariant of `OrgActivityData`: every listed member has
an entry in `activityByUser` under its lowercased login. -/
def membersHaveEntries (d : OrgActivityData) : Prop :=
  ∀ m ∈ d.members, (d.activityByUser.lookup (jsToLower m.login)).isSome = true

/-! ## Concrete test fixtures -/

/-- A 403 carrying a SAML SSO enforcement header. -/
def ssoErrExample : UpstreamError :=
  ⟨true, 403, some "required; url=https://sso.example", none, none, none, "forbidden"⟩

/-- A generic 500 upstream failure. -/
def genericErrExample : UpstreamError :=
  ⟨true, 500, none, none, none, none, "Internal Server Error"⟩

/-- Three repos where the second one's commit fetch fails with the SSO
error and the other two serve one member commit each. -/
def scanFetchSso : String → RepoFetchOutcome := fun r =>
  if r = "r2" then .fail [] ssoErrExample
  else if r = "r1" then .ok [[⟨"c1", some ⟨"Alice"⟩⟩]]
  else .ok [[⟨"c3", some ⟨"bob"⟩⟩]]

/-- Three repos where the second one's commit fetch fails with a simulated
500 and the other two serve one member commit each. -/
def scanFetchGeneric : String → RepoFetchOutcome := fun r =>
  if r = "r2" then .fail [] genericErrExample
  else if r = "r1" then .ok [[⟨"c1", some ⟨"Alice"⟩⟩]]
  else .ok [[⟨"c3", some ⟨"bob"⟩⟩]]

/-! # Theorems -/

theorem lexLe_total (a b : List Char) : lexLe a b = true ∨ lexLe b a = true := by
  induction a generalizing b with
  | nil => left; rfl
  | cons x xs ih =>
    cases b with
    | nil => right; rfl
    | cons y ys =>
      simp only [lexLe]
      rcases Nat.lt_trichotomy x.toNat y.toNat with h | h | h
      · left; simp [h]
      · have h1 : ¬ x.toNat < y.toNat := by omega
        have h2 : ¬ y.toNat < x.toNat := by omega
        simpa [h1, h2] using ih ys
      · right; simp [h, Nat.lt_asymm h]

theorem char_toNat_inj {a b : Char} (h : a.toNat = b.toNat) : a = b := by
  apply Char.ext
  exact UInt32.ext h

theorem lexLe_antisymm {a b : List Char} (h1 : lexLe a b = true)
    (h2 : lexLe b a = true) : a = b := by
  induction a generalizing b with
  | nil =>
    cases b with
    | nil => rfl
    | cons y ys => simp [lexLe] at h2
  | cons x xs ih =>
    cases b with
    | nil => simp [lexLe] at h1
    | cons y ys =>
      simp only [lexLe] at h1 h2
      rcases Nat.lt_trichotomy x.toNat y.toNat with h | h | h
      · simp [h, Nat.lt_asymm h] at h2
      · have h3 : ¬ x.toNat < y.toNat := by omega
        have h4 : ¬ y.toNat < x.toNat := by omega
        simp only [h3, h4, if_false] at h1 h2
        rw [char_toNat_inj h, ih h1 h2]
      · simp [h, Nat.lt_asymm h] at h1

theorem lexLe_trans {a b c : List Char} (h1 : lexLe a b = true)
    (h2 : lexLe b c = true) : lexLe a c = true := by
  induction a generalizing b c with
  | nil => rfl
  | cons x xs ih =>
    cases b with
    | nil => simp [lexLe] at h1
    | cons y ys =>
      cases c with
      | nil => simp [lexLe] at h2
      | cons z zs =>
        simp only [lexLe] at h1 h2 ⊢
        by_cases hxy : x.toNat < y.toNat
        · by_cases hyz : y.toNat < z.toNat
          · have hxz : x.toNat < z.toNat := Nat.lt_trans hxy hyz
            simp [hxz]
          · by_cases hzy : z.toNat < y.toNat
            · simp [hyz, hzy] at h2
            · have hxz : x.toNat < z.toNat := by omega
              simp [hxz]
        · by_cases hyx : y.toNat < x.toNat
          · simp [hxy, hyx] at h1
          · simp only [hxy, hyx, if_false] at h1
            by_cases hyz : y.toNat < z.toNat
            · have hxz : x.toNat < z.toNat := by omega
              simp [hxz]
            · by_cases hzy : z.toNat < y.toNat
              · simp [hyz, hzy] at h2
              · simp only [hyz, hzy, if_false] at h2
                have hxz1 : ¬ x.toNat < z.toNat := by omega
                have hxz2 : ¬ z.toNat < x.toNat := by omega
                simp only [hxz1, hxz2, if_false]
                exact ih h1 h2

theorem sortStrings_perm_eq {l₁ l₂ : List String} (h : l₁.Perm l₂) :
    sortStrings l₁ = sortStrings l₂ := by
  haveI htot : IsTotal String strLeP :=
    ⟨fun a b => by simpa [strLeP, strLe] using lexLe_total a.data b.data⟩
  haveI htr : IsTrans String strLeP :=
    ⟨fun a b c h1 h2 => by
      simp only [strLeP, strLe] at h1 h2 ⊢
      exact lexLe_trans h1 h2⟩
  haveI hanti : IsAntisymm String strLeP :=
    ⟨fun a b h1 h2 => by
      simp only [strLeP, strLe] at h1 h2
      cases a with
      | mk da =>
        cases b with
        | mk db => exact congrArg String.mk (lexLe_antisymm h1 h2)⟩
  exact @List.eq_of_perm_of_sorted String strLeP hanti _ _
    ((List.perm_insertionSort strLeP l₁).trans
      (h.trans (List.perm_insertionSort strLeP l₂).symm))
    (List.sorted_insertionSort strLeP l₁)
    (List.sorted_insertionSort strLeP l₂)

/-- Claim C7: for every org, since and until, and every two repo lists that
are permutations of one another, the cache key derived by the activity
aggregator (`getOrgActivityData`) and by the commit scanner
(`getOrgMemberCommits`) is identical — key derivation is order-independent
in the repo list, because both keys sort the repo list first. -/
theorem cacheKeys_order_independent (dateKey : String → String) (org : String)
    (since untl : Option String) (repos₁ repos₂ : List String)
    (h : repos₁.Perm repos₂) :
    activityCacheKey dateKey org repos₁ since untl
        = activityCacheKey dateKey org repos₂ since untl ∧
      commitsCacheKey dateKey org repos₁ since untl
        = commitsCacheKey dateKey org repos₂ since untl := by
  unfold activityCacheKey commitsCacheKey
  rw [sortStrings_perm_eq h]
  exact ⟨rfl, rfl⟩

/-- Witness for C7: `repos=[a,b]` and `repos=[b,a]` produce the same
activity key and the same commits key. -/
theorem cacheKeys_order_independent_witness :
    activityCacheKey (fun s => s) "acme" ["a", "b"] none none
        = activityCacheKey (fun s => s) "acme" ["b", "a"] none none ∧
      commitsCacheKey (fun s => s) "acme" ["a", "b"] none none
        = commitsCacheKey (fun s => s) "acme" ["b", "a"] none none :=
  cacheKeys_order_independent (fun s => s) "acme" none none ["a", "b"] ["b", "a"]
    (List.Perm.swap "b" "a" [])

/-- Counterexample to claim C2: the record for the key exists (written at
`T = 0`, payload `42`) and the read happens at `T + maxAgeMs + 1`, yet
`readCache` returns a `null` payload (with `stale = true`): an expired entry
only yields its payload under the `allowStale` option, which the plain
two-argument call does not pass.  This matches the repository's own cache
test "should return null for expired cache if allowStale is false". -/
theorem readCache_expired_null_counterexample :
    (readCache (α := Nat) (.entry ⟨0, 42⟩) 1001 (.fin 1000) false).data = none ∧
      (readCache (α := Nat) (.entry ⟨0, 42⟩) 1001 (.fin 1000) false).stale = true := by
  decide

/-- Claim C2 as amended: for an existing entry written at `T` with payload
`v`, a read at `now` returns `stale = (now - T) > maxAgeMs` and returns the
payload exactly when the entry is within `maxAgeMs` or `allowStale` was
passed; an expired read without `allowStale` returns a `null` payload.  With
`maxAgeMs = Infinity` (the stale-fallback read) the payload always comes
back, flagged not stale. -/
theorem readCache_entry_payload (α : Type) (t v : _) (now maxAge : Nat) (st : Bool) :
    ((readCache (α := α) (.entry ⟨t, v⟩) now (.fin maxAge) st).data = some v
        ↔ (now - t ≤ maxAge ∨ st = true)) ∧
      (readCache (α := α) (.entry ⟨t, v⟩) now (.fin maxAge) st).stale
        = decide (now - t > maxAge) ∧
      (readCache (α := α) (.entry ⟨t, v⟩) now .inf st).data = some v ∧
      (readCache (α := α) (.entry ⟨t, v⟩) now .inf st).stale = false := by
  unfold readCache JsMillis.ltAge
  by_cases h : now - t > maxAge
  · have h2 : ¬ now - t ≤ maxAge := by omega
    cases st <;> simp [h, h2]
  · have h2 : now - t ≤ maxAge := by omega
    cases st <;> simp [h, h2]

/-- Counterexample to claim C5: a 429 response signalling rate limiting the
same way (`x-ratelimit-remaining: 0`, `x-ratelimit-reset` set) is *not*
classified as `RateLimited`: `handleOctokitError` only runs its rate-limit
check under `error.status === 403`, so the 429 falls through and is rethrown
unchanged. -/
theorem handleOctokitError_429_counterexample :
    handleOctokitError ⟨true, 429, none, some "0", some "1700000000", none, "rate limited"⟩
        = .original ⟨true, 429, none, some "0", some "1700000000", none, "rate limited"⟩ ∧
      (handleOctokitError
          ⟨true, 429, none, some "0", some "1700000000", none, "rate limited"⟩).isRateLimit
        = false := by
  decide

/-- Claim C5 as amended: for an upstream `RequestError` with status 403, no
successful SSO-marker match, and `x-ratelimit-remaining = "0"`, the
classifier produces `RateLimited` with `resetTimestamp` equal to the parsed
`x-ratelimit-reset` value (epoch seconds) times 1000; a 429, however
it signals, is rethrown as the original error. -/
theorem handleOctokitError_403_rate_limit (e : UpstreamError) (rs : String) (n : Nat)
    (hreq : e.isRequestError = true) (hst : e.status = 403)
    (hsso : ssoCheck e = none) (hrem : e.rateLimitRemaining = some "0")
    (hrst : e.rateLimitReset = some rs) (hn : parseIntDecimal rs = some n) :
    handleOctokitError e
        = .rateLimit (e.dataMessage.getD rateLimitFallbackMessage) (some (n * 1000)) ∧
      ∀ e2 : UpstreamError, e2.status = 429 → handleOctokitError e2 = .original e2 := by
  constructor
  · unfold handleOctokitError rateCheck parseResetMs
    simp [hsso, hreq, hst, hrem, hrst, hn]
  · intro e2 h429
    unfold handleOctokitError ssoCheck rateCheck
    have h1 : (e2.status == 403) = false := by simp [h429]
    have h2 : (e2.status == 404) = false := by simp [h429]
    simp [h1, h2]

/-- Witness for C5 (amended): a concrete 403 with `remaining = "0"` and
`reset = "1700000000"` classifies as `RateLimited` with reset
`1700000000000` ms, and a concrete 429 is rethrown unchanged. -/
theorem handleOctokitError_403_rate_limit_witness :
    handleOctokitError ⟨true, 403, none, some "0", some "1700000000", none, "forbidden"⟩
        = .rateLimit rateLimitFallbackMessage (some 1700000000000) ∧
      handleOctokitError ⟨false, 429, none, none, none, none, "too many requests"⟩
        = .original ⟨false, 429, none, none, none, none, "too many requests"⟩ :=
  have h := handleOctokitError_403_rate_limit
    ⟨true, 403, none, some "0", some "1700000000", none, "forbidden"⟩
    "1700000000" 1700000000 rfl rfl (by decide) rfl rfl (by decide)
  ⟨h.1, h.2 ⟨false, 429, none, none, none, none, "too many requests"⟩ rfl⟩

theorem mem_collectRepoCommits {memberLogins : List String}
    {pages : List (List Commit)} {c : Commit}
    (h : c ∈ collectRepoCommits memberLogins pages) :
    commitMatches memberLogins c = true := by
  induction pages with
  | nil => simp [collectRepoCommits] at h
  | cons page rest ih =>
    simp only [collectRepoCommits] at h
    by_cases h0 : (page.length == 0) = true
    · simp [h0] at h
    · simp only [h0, if_false] at h
      by_cases hshort : page.length < 100
      · simp only [hshort, if_true] at h
        exact (List.mem_filter.mp h).2
      · simp only [hshort, if_false] at h
        rcases List.mem_append.mp h with h | h
        · exact (List.mem_filter.mp h).2
        · exact ih h

theorem mem_repoContribution {memberLogins : List String}
    {outcome : RepoFetchOutcome} {c : Commit}
    (h : c ∈ repoContribution memberLogins outcome) :
    commitMatches memberLogins c = true := by
  cases outcome with
  | ok pages =>
    exact mem_collectRepoCommits
      (by simpa [repoContribution, fetchCommitsForRepo] using h)
  | fail pgs e => simp [repoContribution, fetchCommitsForRepo] at h

/-- Claim C10: every commit in a list produced by the repository scanner has
a non-null `author` whose lowercased login is in the member-login set; in
particular commits whose git authorship is not linked to a GitHub account
(`author = null`) are dropped by the page filter even when an org member
made them. -/
theorem scan_commit_authors_are_members (repos : List String)
    (fetch : String → RepoFetchOutcome) (memberLogins : List String) (c : Commit)
    (hc : c ∈ scanMatchingCommits repos fetch memberLogins) :
    ∃ a, c.author = some a ∧ memberLogins.contains (jsToLower a.login) = true := by
  simp only [scanMatchingCommits, List.mem_flatten, List.mem_map] at hc
  obtain ⟨l, ⟨r, hr, hl⟩, hcl⟩ := hc
  have hm : commitMatches memberLogins c = true := by
    subst hl
    exact mem_repoContribution hcl
  cases ha : c.author with
  | none => simp [commitMatches, ha] at hm
  | some a => exact ⟨a, rfl, by simpa [commitMatches, ha] using hm⟩

/-- Witness for C10: in a scan of one repo whose page holds a linked-author
commit by `Alice` and an unlinked (`author = null`) commit, the linked
commit is in the result and its lowercased login is a member login. -/
theorem scan_commit_authors_are_members_witness :
    ∃ a, (Commit.mk "c1" (some ⟨"Alice"⟩)).author = some a ∧
      (["alice"].contains (jsToLower a.login)) = true :=
  scan_commit_authors_are_members ["r1"]
    (fun _ => .ok [[⟨"c1", some ⟨"Alice"⟩⟩, ⟨"c2", none⟩]]) ["alice"]
    ⟨"c1", some ⟨"Alice"⟩⟩ (by decide)

/-- Counterexample to claim C1: the fetch for repo `r2` fails with an error
that `handleOctokitError` classifies as `SamlSsoError`, yet
`getOrgMemberCommits` does not fail with that error: the promise chain in
`processQueue` catches it and only logs, so the scan resolves with the
partial merged list of repos `r1` and `r3` and writes that partial list to
the cache. -/
theorem getOrgMemberCommits_sso_abort_counterexample :
    (handleOctokitError ssoErrExample).isSamlSso = true ∧
      getOrgMemberCommits (fun s => s) (fun _ => .absent) 5000 "acme"
          ["r1", "r2", "r3"] none none
          (.ok [⟨"Alice", none⟩, ⟨"Bob", none⟩]) scanFetchSso
        = .ok ⟨[⟨"c1", some ⟨"Alice"⟩⟩, ⟨"c3", some ⟨"bob"⟩⟩],
            some ("org-acme-commits-repos_r1_r2_r3-since_start-until_now",
              ⟨5000, [⟨"c1", some ⟨"Alice"⟩⟩, ⟨"c3", some ⟨"bob"⟩⟩]⟩)⟩ := by
  decide

/-- Claim C1 as amended: a per-repository commit fetch that fails with an
`SsoRequired`-classified error does *not* abort the scan — it is caught and
logged like any other per-repo failure, that repository contributes zero
commits, and the merged commits of the remaining repositories are returned
and written to the cache.  The scan fails with `SsoRequired` only when the
error propagates from the member-list fetch (third conjunct). -/
theorem getOrgMemberCommits_per_repo_sso_skipped (dateKey : String → String)
    (cacheStore : String → StoredEntry (List Commit)) (now : Nat) (org : String)
    (targetRepos : List String) (since untl : Option String)
    (members : List OrgMember) (fetch : String → RepoFetchOutcome)
    (r : String) (pgs : List (List Commit)) (e : UpstreamError)
    (hmiss : cacheStore (commitsCacheKey dateKey org targetRepos since untl) = .absent)
    (hr : fetch r = .fail pgs e)
    (hsso : (handleOctokitError e).isSamlSso = true) :
    repoContribution (members.map fun m => jsToLower m.login) (fetch r) = [] ∧
      getOrgMemberCommits dateKey cacheStore now org targetRepos since untl
          (.ok members) fetch
        = .ok ⟨scanMatchingCommits targetRepos fetch (members.map fun m => jsToLower m.login),
            some (commitsCacheKey dateKey org targetRepos since untl,
              writeCache now
                (scanMatchingCommits targetRepos fetch (members.map fun m => jsToLower m.login)))⟩ ∧
      ∀ e2 : GhError,
        getOrgMemberCommits dateKey cacheStore now org targetRepos since untl
          (.error e2) fetch = .error e2 := by
  refine ⟨?_, ?_, ?_⟩
  · simp [repoContribution, fetchCommitsForRepo, hr]
  · unfold getOrgMemberCommits
    simp [hmiss, readCache]
  · intro e2
    unfold getOrgMemberCommits
    simp [hmiss, readCache]

/-- Witness for C1 (amended): in the three-repo scenario where `r2` fails
with the SSO-classified error, the hypotheses hold and `r2` contributes no
commits. -/
theorem getOrgMemberCommits_per_repo_sso_skipped_witness :
    (handleOctokitError ssoErrExample).isSamlSso = true ∧
      repoContribution ["alice", "bob"] (scanFetchSso "r2") = [] :=
  ⟨by decide,
    (getOrgMemberCommits_per_repo_sso_skipped (fun s => s) (fun _ => .absent) 5000
      "acme" ["r1", "r2", "r3"] none none [⟨"Alice", none⟩, ⟨"Bob", none⟩]
      scanFetchSso "r2" [] ssoErrExample rfl (by decide) (by decide)).1⟩

/-- Claim C4: a per-repository commit fetch failing with an error *not*
classified as `SsoRequired` (for example a simulated 500) makes that
repository contribute zero commits while the scan still completes, returning
the merged matching commits of the other repositories. -/
theorem getOrgMemberCommits_tolerates_generic_failure (dateKey : String → String)
    (cacheStore : String → StoredEntry (List Commit)) (now : Nat) (org : String)
    (targetRepos : List String) (since untl : Option String)
    (members : List OrgMember) (fetch : String → RepoFetchOutcome)
    (r : String) (pgs : List (List Commit)) (e : UpstreamError)
    (hmiss : cacheStore (commitsCacheKey dateKey org targetRepos since untl) = .absent)
    (hr : fetch r = .fail pgs e)
    (hnot : (handleOctokitError e).isSamlSso = false) :
    repoContribution (members.map fun m => jsToLower m.login) (fetch r) = [] ∧
      getOrgMemberCommits dateKey cacheStore now org targetRepos since untl
          (.ok members) fetch
        = .ok ⟨scanMatchingCommits targetRepos fetch (members.map fun m => jsToLower m.login),
            some (commitsCacheKey dateKey org targetRepos since untl,
              writeCache now
                (scanMatchingCommits targetRepos fetch (members.map fun m => jsToLower m.login)))⟩ := by
  constructor
  · simp [repoContribution, fetchCommitsForRepo, hr]
  · unfold getOrgMemberCommits
    simp [hmiss, readCache]

/-- Witness for C4: three repos where `r2` fails with a simulated 500;
the scan returns the merged commits of `r1` and `r3` and `r2` contributes
zero. -/
theorem getOrgMemberCommits_tolerates_generic_failure_witness :
    (handleOctokitError genericErrExample).isSamlSso = false ∧
      repoContribution ["alice", "bob"] (scanFetchGeneric "r2") = [] ∧
      getOrgMemberCommits (fun s => s) (fun _ => .absent) 5000 "acme"
          ["r1", "r2", "r3"] none none
          (.ok [⟨"Alice", none⟩, ⟨"Bob", none⟩]) scanFetchGeneric
        = .ok ⟨[⟨"c1", some ⟨"Alice"⟩⟩, ⟨"c3", some ⟨"bob"⟩⟩],
            some ("org-acme-commits-repos_r1_r2_r3-since_start-until_now",
              ⟨5000, [⟨"c1", some ⟨"Alice"⟩⟩, ⟨"c3", some ⟨"bob"⟩⟩]⟩)⟩ := by
  have h := getOrgMemberCommits_tolerates_generic_failure (fun s => s)
    (fun _ => .absent) 5000 "acme" ["r1", "r2", "r3"] none none
    [⟨"Alice", none⟩, ⟨"Bob", none⟩] scanFetchGeneric "r2" [] genericErrExample
    rfl (by decide) (by decide)
  exact ⟨by decide, h.1, h.2.trans (by decide)⟩

/-- Counterexample to claim C3: the cache for the dashboard key was primed
at `T0 = 0` with a payload, the fresh fetch at `T1 = 100000000` fails with
`RateLimited{resetTimestamp = 777}`, and the orchestration does return the
cached payload with `isStale = true` — but the accompanying error payload
carries no `rateLimitExceeded` field and no `resetTimestamp` field: the
handler builds it as `{message, isStale, timestamp}` only. -/
theorem handleGetOrgDashboard_rate_limit_fields_counterexample :
    handleGetOrgDashboard (fun _ => .entry ⟨0, ⟨[], []⟩⟩) 100000000 3600000
        "acme" ["a"] "2024" none (.error (.rateLimit "rl" (some 777)))
      = .staleWithError ⟨[], []⟩ [("message", .s "rl"), ("isStale", .b true)] ∧
      ((staleErrorFields (.rateLimit "rl" (some 777))).lookup "rateLimitExceeded" = none ∧
        (staleErrorFields (.rateLimit "rl" (some 777))).lookup "resetTimestamp" = none) := by
  decide

/-- Claim C3 as amended: when the fresh fetch fails and an entry of any age
exists at the handler's derived key (here: older than the fresh TTL, so the
initial check misses), the orchestration returns the cached payload marked
`isStale = true` together with an error payload — but that payload carries
only the classified error's `message` (and an `isStale` flag), not the
`rateLimitExceeded` / `resetTimestamp` details of a `RateLimited` failure. -/
theorem handleGetOrgDashboard_stale_fallback (cacheStore : String → StoredEntry OrgActivityData)
    (now dailyTtl : Nat) (org : String) (repos : List String)
    (sinceISO : String) (untilISO : Option String)
    (t : Nat) (d : OrgActivityData) (e : GhError)
    (hentry : cacheStore (dashboardCacheKey org repos sinceISO untilISO) = .entry ⟨t, d⟩)
    (hexpired : now - t > dailyTtl) :
    handleGetOrgDashboard cacheStore now dailyTtl org repos sinceISO untilISO (.error e)
        = .staleWithError d (staleErrorFields e) ∧
      (staleErrorFields e).lookup "message" = some (.s e.msg) ∧
      (staleErrorFields e).lookup "rateLimitExceeded" = none ∧
      (staleErrorFields e).lookup "resetTimestamp" = none := by
  refine ⟨?_, by simp [staleErrorFields], by simp [staleErrorFields], by simp [staleErrorFields]⟩
  unfold handleGetOrgDashboard
  simp [hentry, readCache, JsMillis.ltAge, hexpired]

/-- Witness for C3 (amended): concrete primed cache at `T0 = 0`, expired
for the fresh TL at `T1 = 100000000`, rate-limited fresh fetch. -/
theorem handleGetOrgDashboard_stale_fallback_witness :
    handleGetOrgDashboard (fun _ => .entry ⟨0, ⟨[], []⟩⟩) 100000000 3600000
        "acme" ["a"] "2024" none (.error (.rateLimit "rl" (some 777)))
      = .staleWithError ⟨[], []⟩ (staleErrorFields (.rateLimit "rl" (some 777))) ∧
      (staleErrorFields (.rateLimit "rl" (some 777))).lookup "message"
        = some (.s (GhError.msg (.rateLimit "rl" (some 777)))) ∧
      (staleErrorFields (.rateLimit "rl" (some 777))).lookup "rateLimitExceeded" = none ∧
      (staleErrorFields (.rateLimit "rl" (some 777))).lookup "resetTimestamp" = none :=
  handleGetOrgDashboard_stale_fallback (fun _ => .entry ⟨0, ⟨[], []⟩⟩) 100000000 3600000
    "acme" ["a"] "2024" none 0 ⟨[], []⟩ (.rateLimit "rl" (some 777)) rfl (by decide)

/-- Claim C6: when the fresh fetch fails and no cache entry exists at the
derived key, the orchestration propagates the classified error — a 403
`ssoRequired` response for `SsoRequired`, a 429 `rateLimitExceeded` response
carrying the reset timestamp for `RateLimited`, `next(error)` otherwise —
and never a successful (fresh or stale) payload response. -/
theorem handleGetOrgDashboard_no_cache_propagates (cacheStore : String → StoredEntry OrgActivityData)
    (now dailyTtl : Nat) (org : String) (repos : List String)
    (sinceISO : String) (untilISO : Option String) (e : GhError)
    (habsent : cacheStore (dashboardCacheKey org repos sinceISO untilISO) = .absent) :
    handleGetOrgDashboard cacheStore now dailyTtl org repos sinceISO untilISO (.error e)
        = errorResponseFor e ∧
      (∀ d, handleGetOrgDashboard cacheStore now dailyTtl org repos sinceISO untilISO
        (.error e) ≠ .freshData d) ∧
      ∀ d flds, handleGetOrgDashboard cacheStore now dailyTtl org repos sinceISO untilISO
        (.error e) ≠ .staleWithError d flds := by
  have hmain : handleGetOrgDashboard cacheStore now dailyTtl org repos sinceISO untilISO
      (.error e) = errorResponseFor e := by
    unfold handleGetOrgDashboard errorResponseFor
    cases e <;> simp [habsent, readCache]
  refine ⟨hmain, ?_, ?_⟩
  · intro d h
    rw [hmain] at h
    cases e <;> simp [errorResponseFor] at h
  · intro d flds h
    rw [hmain] at h
    cases e <;> simp [errorResponseFor] at h

/-- Witness for C6: with an empty cache and a rate-limited fresh fetch, the
handler answers 429 with `rateLimitExceeded = true` and the reset
timestamp. -/
theorem handleGetOrgDashboard_no_cache_propagates_witness :
    handleGetOrgDashboard (fun _ => .absent) 100 3600000 "acme" ["a"] "2024" none
        (.error (.rateLimit "rl" (some 777)))
      = errorResponseFor (.rateLimit "rl" (some 777)) ∧
      handleGetOrgDashboard (fun _ => .absent) 100 3600000 "acme" ["a"] "2024" none
        (.error (.rateLimit "rl" (some 777)))
      = .rateLimitResponse 429 true (some 777) "rl" :=
  have h := handleGetOrgDashboard_no_cache_propagates (fun _ => .absent) 100 3600000
    "acme" ["a"] "2024" none (.rateLimit "rl" (some 777)) rfl
  ⟨h.1, h.1.trans (by decide)⟩

theorem beq_comm_false {a b : String} (h : (a == b) = false) : (b == a) = false := by
  simp only [beq_eq_false_iff_ne, ne_eq] at h ⊢
  exact fun hh => h hh.symm

theorem lookup_map_overwrite {α : Type} (m : List (String × α)) (k : String) (v : α)
    (hany : (m.any fun p => p.1 == k) = true) :
    ((m.map fun p => if p.1 == k then (k, v) else p).lookup k) = some v := by
  induction m with
  | nil => simp at hany
  | cons p ps ih =>
    simp only [List.map_cons]
    by_cases hp : (p.1 == k) = true
    · rw [if_pos hp]
      simp [List.lookup]
    · rw [if_neg hp]
      have hpb : (p.1 == k) = false := by
        simp only [Bool.not_eq_true] at hp
        exact hp
      have hps : (ps.any fun q => q.1 == k) = true := by
        have h2 := hany
        simp only [List.any_cons, hpb, Bool.false_or] at h2
        exact h2
      have hkp : (k == p.1) = false := beq_comm_false hpb
      simp only [List.lookup, hkp]
      exact ih hps

theorem lookup_append_new {α : Type} (m : List (String × α)) (k : String) (v : α)
    (hnone : (m.any fun p => p.1 == k) = false) :
    ((m ++ [(k, v)]).lookup k) = some v := by
  induction m with
  | nil => simp [List.lookup]
  | cons p ps ih =>
    simp only [List.any_cons, Bool.or_eq_false_iff] at hnone
    have hkp : (k == p.1) = false := beq_comm_false hnone.1
    simp only [List.cons_append, List.lookup, hkp]
    exact ih hnone.2

theorem lookup_objInsert_self {α : Type} (m : List (String × α)) (k : String) (v : α) :
    ((objInsert m k v).lookup k) = some v := by
  unfold objInsert
  by_cases hany : (m.any fun p => p.1 == k) = true
  · rw [if_pos hany]
    exact lookup_map_overwrite m k v hany
  · rw [if_neg hany]
    refine lookup_append_new m k v ?_
    simp only [Bool.not_eq_true] at hany
    exact hany

theorem lookup_map_overwrite_isSome {α : Type} (m : List (String × α)) (k k' : String)
    (v : α) (h : (m.lookup k').isSome = true) :
    (((m.map fun p => if p.1 == k then (k, v) else p).lookup k').isSome) = true := by
  induction m with
  | nil => simp [List.lookup] at h
  | cons p ps ih =>
    simp only [List.map_cons]
    by_cases hp : (p.1 == k) = true
    · rw [if_pos hp]
      by_cases hk : (k' == k) = true
      · simp [List.lookup, hk]
      · have hkb : (k' == k) = false := by
          simp only [Bool.not_eq_true] at hk
          exact hk
        have hk2 : (k' == p.1) = false := by
          simp only [beq_iff_eq] at hp
          rw [hp]
          exact hkb
        simp only [List.lookup, hk2] at h
        simp only [List.lookup, hkb]
        exact ih h
    · rw [if_neg hp]
      by_cases hk : (k' == p.1) = true
      · simp [List.lookup, hk]
      · have hkb : (k' == p.1) = false := by
          simp only [Bool.not_eq_true] at hk
          exact hk
        simp only [List.lookup, hkb] at h
        simp only [List.lookup, hkb]
        exact ih h

theorem lookup_objInsert_isSome {α : Type} (m : List (String × α)) (k k' : String) (v : α)
    (h : (m.lookup k').isSome = true) :
    (((objInsert m k v).lookup k').isSome) = true := by
  unfold objInsert
  by_cases hany : (m.any fun p => p.1 == k) = true
  · rw [if_pos hany]
    exact lookup_map_overwrite_isSome m k k' v h
  · rw [if_neg hany]
    clear hany
    induction m with
    | nil => simp [List.lookup] at h
    | cons p ps ih =>
      by_cases hk : (k' == p.1) = true
      · simp [List.lookup, hk]
      · have hkb : (k' == p.1) = false := by
          simp only [Bool.not_eq_true] at hk
          exact hk
        simp only [List.lookup, hkb] at h
        simp only [List.cons_append, List.lookup, hkb]
        exact ih h

theorem lookup_buildActivityByUser_aux {α : Type}
    (pairs : List (OrgMember × SearchQuad α)) (acc : List (String × UserActivitySummary))
    (k : String)
    (h : (acc.lookup k).isSome = true ∨ ∃ p ∈ pairs, k = jsToLower p.1.login) :
    ((pairs.foldl (fun acc p => objInsert acc (jsToLower p.1.login) (summaryOfQuad p.2)) acc).lookup k).isSome
      = true := by
  induction pairs generalizing acc with
  | nil =>
    rcases h with h | ⟨p, hp, _⟩
    · simpa using h
    · simp at hp
  | cons p ps ih =>
    simp only [List.foldl_cons]
    apply ih
    rcases h with h | ⟨q, hq, hkq⟩
    · exact Or.inl (lookup_objInsert_isSome _ _ _ _ h)
    · rcases List.mem_cons.mp hq with rfl | hq2
      · left
        rw [hkq, lookup_objInsert_self]
        rfl
      · exact Or.inr ⟨q, hq2, hkq⟩

theorem collectActivities_fst {α : Type}
    (searchResults : String → Except GhError (SearchQuad α)) :
    ∀ (ms : List OrgMember) (pairs : List (OrgMember × SearchQuad α)),
      collectActivities searchResults ms = .ok pairs → pairs.map Prod.fst = ms := by
  intro ms
  induction ms with
  | nil =>
    intro pairs h
    simp only [collectActivities] at h
    cases h
    rfl
  | cons m rest ih =>
    intro pairs h
    simp only [collectActivities] at h
    cases hsr : searchResults m.login with
    | error e => rw [hsr] at h; cases h
    | ok q =>
      rw [hsr] at h
      cases hrec : collectActivities searchResults rest with
      | error e => rw [hrec] at h; cases h
      | ok tail =>
        rw [hrec] at h
        cases h
        simp only [List.map_cons]
        rw [ih tail hrec]

/-- Claim C8: every result of `getOrgActivityData` satisfies the data-model
invariant — each member of `members` has an entry in `activityByUser` under
its lowercased login, holding the four (ℕ-valued, hence non-negative)
counts.  The freshly computed aggregate satisfies it unconditionally; a
cache-served aggregate satisfies it provided the stored entry does (the
store only ever holds previous outputs of this function, which the final
conjunct shows preserve the invariant). -/
theorem getOrgActivityData_members_have_entries {α : Type} (dateKey : String → String)
    (cacheStore : String → StoredEntry OrgActivityData) (now : Nat) (org : String)
    (targetRepos : List String) (since untl : Option String)
    (membersResult : Except GhError (List OrgMember))
    (searchResults : String → Except GhError (SearchQuad α))
    (hcache : ∀ en, cacheStore (activityCacheKey dateKey org targetRepos since untl)
      = .entry en → membersHaveEntries en.data) :
    ∀ res, getOrgActivityData dateKey cacheStore now org targetRepos since untl
        membersResult searchResults = .ok res →
      membersHaveEntries res.returned ∧
        ∀ key entry, res.cacheWrite = some (key, entry) → membersHaveEntries entry.data := by
  intro res hres
  have hfresh : ∀ members pairs, collectActivities searchResults members = .ok pairs →
      membersHaveEntries ⟨buildActivityByUser pairs, members⟩ := by
    intro members pairs hpairs
    intro m hm
    apply lookup_buildActivityByUser_aux
    right
    have : m ∈ pairs.map Prod.fst := by
      rw [collectActivities_fst searchResults members pairs hpairs]
      exact hm
    rcases List.mem_map.mp this with ⟨p, hp, rfl⟩
    exact ⟨p, hp, rfl⟩
  unfold getOrgActivityData at hres
  cases hst : cacheStore (activityCacheKey dateKey org targetRepos since untl) with
  | absent =>
    simp only [hst, readCache] at hres
    cases membersResult with
    | error e => simp only [] at hres; cases hres
    | ok members =>
      simp only [] at hres
      cases hpairs : collectActivities searchResults members with
      | error e => rw [hpairs] at hres; cases hres
      | ok pairs =>
        rw [hpairs] at hres
        cases hres
        refine ⟨hfresh members pairs hpairs, ?_⟩
        intro key entry hw
        cases hw
        exact hfresh members pairs hpairs
  | corrupt =>
    simp only [hst, readCache] at hres
    cases membersResult with
    | error e => simp only [] at hres; cases hres
    | ok members =>
      simp only [] at hres
      cases hpairs : collectActivities searchResults members with
      | error e => rw [hpairs] at hres; cases hres
      | ok pairs =>
        rw [hpairs] at hres
        cases hres
        refine ⟨hfresh members pairs hpairs, ?_⟩
        intro key entry hw
        cases hw
        exact hfresh members pairs hpairs
  | entry en =>
    simp only [hst, readCache] at hres
    by_cases hexp : JsMillis.ltAge (now - en.timestamp) (.fin ORG_ACTIVITY_CACHE_TTL) = true
    · simp only [hexp, if_true] at hres
      cases membersResult with
      | error e => simp only [] at hres; cases hres
      | ok members =>
        simp only [] at hres
        cases hpairs : collectActivities searchResults members with
        | error e => rw [hpairs] at hres; cases hres
        | ok pairs =>
          rw [hpairs] at hres
          cases hres
          refine ⟨hfresh members pairs hpairs, ?_⟩
          intro key entry hw
          cases hw
          exact hfresh members pairs hpairs
    · simp only [hexp, if_false] at hres
      cases hres
      refine ⟨hcache en hst, ?_⟩
      intro key entry hw
      cases hw

/-- Witness for C8: an empty cache, one member `Alice` with four empty
search results; the aggregate has an entry under `alice`. -/
theorem getOrgActivityData_members_have_entries_witness :
    membersHaveEntries (OrgActivityData.mk [("alice", ⟨0, 0, 0, 0⟩)] [⟨"Alice", none⟩]) :=
  (getOrgActivityData_members_have_entries (α := Nat) (fun s => s) (fun _ => .absent)
    5000 "acme" ["r1"] none none (.ok [⟨"Alice", none⟩]) (fun _ => .ok ⟨[], [], [], []⟩)
    (fun en h => nomatch h)
    ⟨⟨[("alice", ⟨0, 0, 0, 0⟩)], [⟨"Alice", none⟩]⟩,
      some ("org-acme-activity-repos_r1-since_start-until_now",
        ⟨5000, ⟨[("alice", ⟨0, 0, 0, 0⟩)], [⟨"Alice", none⟩]⟩⟩)⟩
    (by decide)).1

theorem processQueue_active_le (q : List String) (a : Nat)
    (h : a ≤ MAX_CONCURRENT_REPO_FETCHES) :
    (processQueue q a).2 ≤ MAX_CONCURRENT_REPO_FETCHES := by
  induction q generalizing a with
  | nil => simpa [processQueue] using h
  | cons r rest ih =>
    unfold processQueue
    by_cases ha : a < MAX_CONCURRENT_REPO_FETCHES
    · rw [if_pos ha]
      exact ih (a + 1) (by omega)
    · rw [if_neg ha]
      exact h

theorem processQueue_drained (q : List String) (a : Nat)
    (h : a < MAX_CONCURRENT_REPO_FETCHES) :
    (processQueue q a).1 = [] ∨ (processQueue q a).2 = MAX_CONCURRENT_REPO_FETCHES := by
  induction q generalizing a with
  | nil => left; rfl
  | cons r rest ih =>
    unfold processQueue
    rw [if_pos h]
    by_cases ha : a + 1 < MAX_CONCURRENT_REPO_FETCHES
    · exact ih (a + 1) ha
    · have hmx : a + 1 = MAX_CONCURRENT_REPO_FETCHES := by omega
      cases rest with
      | nil => left; rfl
      | cons x xs =>
        right
        unfold processQueue
        rw [if_neg ha]
        exact hmx

theorem drainReachable_inv (repos : List String) (s : ScanState)
    (h : DrainReachable repos s) :
    s.active ≤ MAX_CONCURRENT_REPO_FETCHES ∧
      (s.queue = [] ∨ s.active = MAX_CONCURRENT_REPO_FETCHES) := by
  unfold DrainReachable at h
  induction h with
  | refl =>
    exact ⟨processQueue_active_le repos 0 (Nat.zero_le _),
      processQueue_drained repos 0 (by decide)⟩
  | tail h1 h2 ih =>
    cases h2 with
    | finish q a =>
      have ha : a < MAX_CONCURRENT_REPO_FETCHES := by
        have := ih.1
        simp only [ScanState.active] at this
        omega
      exact ⟨processQueue_active_le q a (by omega), processQueue_drained q a ha⟩

/-- Claim C9: during a scan the number of per-repository fetches in flight
(`activeFetches`) never exceeds `MAX_CONCURRENT_REPO_FETCHES = 5` — the
`processQueue` loop only starts a fetch under the guard
`activeFetches < MAX_CONCURRENT_REPO_FETCHES`, whatever the interleaving of
starts and completions — and the scan's drain loop (which returns once
`activeFetches` reaches `0`) can only observe an empty queue at that point:
each completing fetch refills the pool synchronously, so every observable
state has either an empty queue or a saturated pool. -/
theorem scan_concurrency_cap_and_drain :
    (∀ (repos : List String) (s : ScanState), ScanReachable repos s →
        s.active ≤ MAX_CONCURRENT_REPO_FETCHES) ∧
      ∀ (repos : List String) (s : ScanState), DrainReachable repos s →
        s.active = 0 → s.queue = [] := by
  constructor
  · intro repos s h
    unfold ScanReachable at h
    induction h with
    | refl => exact Nat.zero_le _
    | tail h1 h2 ih =>
      cases h2 with
      | start r q a hlt =>
        simp only [ScanState.active]
        omega
      | finish q a =>
        simp only [ScanState.active] at ih ⊢
        omega
  · intro repos s h h0
    rcases (drainReachable_inv repos s h).2 with hq | ha
    · exact hq
    · rw [h0] at ha
      exact absurd ha.symm (by decide)

/-- Witness for C9: scanning 12 repositories, the state after one start has
at most 5 active fetches, and a drain-observable state with no active
fetches has an empty queue. -/
theorem scan_concurrency_cap_and_drain_witness :
    (ScanState.mk ["b", "c", "d", "e", "f", "g", "h", "i", "j", "k", "l"] 1).active
        ≤ MAX_CONCURRENT_REPO_FETCHES ∧
      (ScanState.mk [] 0).queue = [] :=
  ⟨scan_concurrency_cap_and_drain.1
      ["a", "b", "c", "d", "e", "f", "g", "h", "i", "j", "k", "l"]
      ⟨["b", "c", "d", "e", "f", "g", "h", "i", "j", "k", "l"], 1⟩
      (Relation.ReflTransGen.single
        (ScanStep.start "a" ["b", "c", "d", "e", "f", "g", "h", "i", "j", "k", "l"] 0
          (by decide))),
    scan_concurrency_cap_and_drain.2 [] ⟨[], 0⟩ Relation.ReflTransGen.refl rfl⟩

end PulsePoint
